import Mathlib

/-!
Verification of the ray-encoding, step-budget and shading layer of the
ASIC ray tracer (rays_to_scene.py and test_raytracer.py).

Modelling conventions.
Python floats are modelled by exact rationals; the non-finite float values
(NaN and the two infinities), which the encoders only ever test with
isfinite, are modelled by a dedicated constructor of FloatVal.  The slab
intersection routine starts its interval at (-inf, +inf); we model tmin by
an Option with none standing for minus infinity, and tmax by an Option with
none standing for plus infinity, which is exact for the max/min/compare
operations the routine performs on them.  The shading stage is modelled over
the real numbers because it divides by a euclidean norm.
-/

/-- Width of the voxel world: the box is [0,32]^3 with 32^3 voxels. -/
def N : ℕ := 32

/-- Direction components below this magnitude make an axis inactive. -/
def EPS_DIR : ℚ := 1e-12

/-- Advance past the entry point by this amount before deriving the voxel. -/
def EPS_ADVANCE : ℚ := 1e-6

/-- Python round: round to nearest, ties to even, as used by to_fixed. -/
def pyRound (q : ℚ) : ℤ :=
  if q - ⌊q⌋ < 1/2 then ⌊q⌋
  else if 1/2 < q - ⌊q⌋ then ⌊q⌋ + 1
  else if ⌊q⌋ % 2 = 0 then ⌊q⌋ else ⌊q⌋ + 1

/-- Python int() on a float: truncation toward zero. -/
def truncQ (q : ℚ) : ℤ := if 0 ≤ q then ⌊q⌋ else -⌊-q⌋

/-- A Python float as seen by the encoders: either an exact finite value or
one of the non-finite values (NaN, +inf, -inf), which isfinite rejects. -/
inductive FloatVal where
  | fin (q : ℚ)
  | nonfinite
deriving DecidableEq, Repr

/-- rays_to_scene.to_fixed: non-negative real to unsigned fixed point,
rounding, saturating to the maximum code on overflow, inf, NaN or a
negative input. -/
def to_fixed : FloatVal → ℕ → ℕ → ℕ
  | .nonfinite, wbits, _ => 2 ^ wbits - 1
  | .fin q, wbits, frac =>
    if q < 0 then 2 ^ wbits - 1
    else if pyRound (q * 2 ^ frac) < 0 then 0
    else if ((2 ^ wbits - 1 : ℕ) : ℤ) < pyRound (q * 2 ^ frac) then 2 ^ wbits - 1
    else (pyRound (q * 2 ^ frac)).toNat

/-- test_raytracer._to_fixed_nonneg: same saturation policy as to_fixed but
truncating instead of rounding. -/
def to_fixed_nonneg : FloatVal → ℕ → ℕ → ℕ
  | .nonfinite, wbits, _ => 2 ^ wbits - 1
  | .fin q, wbits, frac =>
    if q < 0 then 2 ^ wbits - 1
    else if truncQ (q * 2 ^ frac) < 0 then 0
    else if ((2 ^ wbits - 1 : ℕ) : ℤ) < truncQ (q * 2 ^ frac) then 2 ^ wbits - 1
    else (truncQ (q * 2 ^ frac)).toNat

/-- A vector of three rational components. -/
structure Vec3 where
  x : ℚ
  y : ℚ
  z : ℚ
deriving DecidableEq, Repr

/-- Lower corner of the world box. -/
def WORLD_MIN : Vec3 := ⟨0, 0, 0⟩

/-- Upper corner of the world box. -/
def WORLD_MAX : Vec3 := ⟨32, 32, 32⟩

/-- tmin = max(tmin, t0) of the slab loop; the running tmin starts at minus
infinity (none), so the first active axis just installs its value. -/
def updMin (cur : Option ℚ) (t : ℚ) : ℚ :=
  match cur with
  | none => t
  | some a => max a t

/-- tmax = min(tmax, t1) of the slab loop; the running tmax starts at plus
infinity (none). -/
def updMax (cur : Option ℚ) (t : ℚ) : ℚ :=
  match cur with
  | none => t
  | some b => min b t

/-- One axis of the slab loop in intersect_aabb.  The running interval is
(tmin, tmax) where none stands for -infinity in the first component and for
+infinity in the second.  The outer none is the early False return. -/
def slabAxis (o d lo hi : ℚ) (st : Option ℚ × Option ℚ) :
    Option (Option ℚ × Option ℚ) :=
  if |d| < EPS_DIR then
    if o < lo ∨ hi < o then none else some st
  else
    let t0 := (lo - o) * (1 / d)
    let t1 := (hi - o) * (1 / d)
    let p := if t1 < t0 then (t1, t0) else (t0, t1)
    if updMax st.2 p.2 < updMin st.1 p.1 then none
    else some (some (updMin st.1 p.1), some (updMax st.2 p.2))

/-- Result of the slab test: hit flag, entry and exit parametric distance.
tEnter = none stands for -infinity, tExit = none for +infinity. -/
structure AabbResult where
  hit : Bool
  tEnter : Option ℚ
  tExit : Option ℚ
deriving DecidableEq, Repr

/-- rays_to_scene.intersect_aabb: ray versus box slab test over the three
axes, returning (False, 0, 0) as soon as the interval empties. -/
def intersect_aabb (origin direction bmin bmax : Vec3) : AabbResult :=
  match slabAxis origin.x direction.x bmin.x bmax.x (none, none) with
  | none => ⟨false, some 0, some 0⟩
  | some st1 =>
    match slabAxis origin.y direction.y bmin.y bmax.y st1 with
    | none => ⟨false, some 0, some 0⟩
    | some st2 =>
      match slabAxis origin.z direction.z bmin.z bmax.z st2 with
      | none => ⟨false, some 0, some 0⟩
      | some st3 => ⟨true, st3.1, st3.2⟩

/-- The t_exit < 0.0 test of make_option_b_job; +infinity is not negative. -/
def tExitNeg : Option ℚ → Bool
  | none => false
  | some q => decide (q < 0)

/-- The entry distance is at most zero; minus infinity (none) qualifies. -/
def entryLE0 : Option ℚ → Prop
  | none => True
  | some q => q ≤ 0

/-- The exit distance is at least zero; plus infinity (none) qualifies. -/
def exitGE0 : Option ℚ → Prop
  | none => True
  | some q => 0 ≤ q

/-- The Option-B DDA job handed to the oracle.  Field order mirrors the
tuple returned by rays_to_scene.make_option_b_job, with the valid flag
last. -/
structure RayJob where
  ix0 : ℤ
  iy0 : ℤ
  iz0 : ℤ
  sx : ℕ
  sy : ℕ
  sz : ℕ
  next_x : ℕ
  next_y : ℕ
  next_z : ℕ
  inc_x : ℕ
  inc_y : ℕ
  inc_z : ℕ
  max_steps : ℕ
  valid : ℕ
deriving DecidableEq, Repr

/-- The filler-zeros job returned when the ray misses the world box. -/
def invalidJob : RayJob := ⟨0, 0, 0, 0, 0, 0, 0, 0, 0, 0, 0, 0, 0, 0⟩

/-- Per-axis first-boundary distance and per-step increment (axis_t inside
make_option_b_job).  An axis whose direction component is below EPS_DIR is
inactive: both values are infinite, hence nonfinite. -/
def axis_t (dcomp pcomp : ℚ) (next_b : ℤ) : FloatVal × FloatVal :=
  if |dcomp| < EPS_DIR then (.nonfinite, .nonfinite)
  else
    let tmax := ((next_b : ℚ) - pcomp) / dcomp
    let tmax := if tmax < 0 then 0 else tmax
    let tdelta := |1 / dcomp|
    (.fin tmax, .fin tdelta)

/-- The valid branch of make_option_b_job: advance past the entry point,
clamp into the box, derive start voxel, step signs, boundary planes, then
encode the per-axis distances and increments in fixed point. -/
def validJobFor (origin direction : Vec3) (tEnter : Option ℚ) (wbits frac : ℕ)
    (max_steps : ℤ) : RayJob :=
  let t0 := (match tEnter with | none => (0 : ℚ) | some t => max t 0) + EPS_ADVANCE
  let p0x := min (max (origin.x + direction.x * t0) 0) ((N : ℚ) - 1e-9)
  let p0y := min (max (origin.y + direction.y * t0) 0) ((N : ℚ) - 1e-9)
  let p0z := min (max (origin.z + direction.z * t0) 0) ((N : ℚ) - 1e-9)
  let ix0 : ℤ := ⌊p0x⌋
  let iy0 : ℤ := ⌊p0y⌋
  let iz0 : ℤ := ⌊p0z⌋
  let sx : ℕ := if 0 ≤ direction.x then 1 else 0
  let sy : ℕ := if 0 ≤ direction.y then 1 else 0
  let sz : ℕ := if 0 ≤ direction.z then 1 else 0
  let step_x : ℤ := if sx = 1 then 1 else -1
  let step_y : ℤ := if sy = 1 then 1 else -1
  let step_z : ℤ := if sz = 1 then 1 else -1
  let next_bx : ℤ := if step_x = 1 then ix0 + 1 else ix0
  let next_by : ℤ := if step_y = 1 then iy0 + 1 else iy0
  let next_bz : ℤ := if step_z = 1 then iz0 + 1 else iz0
  let tx := axis_t direction.x p0x next_bx
  let ty := axis_t direction.y p0y next_by
  let tz := axis_t direction.z p0z next_bz
  { ix0 := ix0, iy0 := iy0, iz0 := iz0,
    sx := sx, sy := sy, sz := sz,
    next_x := to_fixed tx.1 wbits frac,
    next_y := to_fixed ty.1 wbits frac,
    next_z := to_fixed tz.1 wbits frac,
    inc_x := to_fixed tx.2 wbits frac,
    inc_y := to_fixed ty.2 wbits frac,
    inc_z := to_fixed tz.2 wbits frac,
    max_steps := (max 0 (min max_steps 1023)).toNat,
    valid := 1 }

/-- rays_to_scene.make_option_b_job: a valid job, or the filler-zeros job
when the slab test misses or the exit distance is negative. -/
def make_option_b_job (origin direction : Vec3) (wbits frac : ℕ)
    (max_steps : ℤ) : RayJob :=
  let r := intersect_aabb origin direction WORLD_MIN WORLD_MAX
  if r.hit = false ∨ tExitNeg r.tExit = true then invalidJob
  else validJobFor origin direction r.tEnter wbits frac max_steps

/-- One line of ray_jobs.txt: px py valid ix0 iy0 iz0 sx sy sz next_x
next_y next_z inc_x inc_y inc_z max_steps, all integers. -/
structure JobLine where
  px : ℕ
  py : ℕ
  valid : ℕ
  ix0 : ℤ
  iy0 : ℤ
  iz0 : ℤ
  sx : ℕ
  sy : ℕ
  sz : ℕ
  next_x : ℕ
  next_y : ℕ
  next_z : ℕ
  inc_x : ℕ
  inc_y : ℕ
  inc_z : ℕ
  max_steps : ℕ
deriving DecidableEq, Repr

/-- The record written for one pixel by the main loop of rays_to_scene. -/
def jobLine (px py : ℕ) (j : RayJob) : JobLine :=
  ⟨px, py, j.valid, j.ix0, j.iy0, j.iz0, j.sx, j.sy, j.sz,
   j.next_x, j.next_y, j.next_z, j.inc_x, j.inc_y, j.inc_z, j.max_steps⟩

/-- The data lines of ray_jobs.txt: the main loop of rays_to_scene walks py
over the image height and px over the width, builds one job per pixel from
the primary ray for that pixel, and writes exactly one line for it. -/
def rayJobsLines (w h : ℕ) (ray : ℕ → ℕ → Vec3 × Vec3) (wbits frac : ℕ)
    (max_steps : ℤ) : List JobLine :=
  (List.range h).flatMap fun py =>
    (List.range w).map fun px =>
      jobLine px py (make_option_b_job (ray px py).1 (ray px py).2 wbits frac max_steps)

/-- The three traversal axes. -/
inductive Axis where
  | X
  | Y
  | Z
deriving DecidableEq, Repr

/-- Accumulator of the named axis. -/
def axisNext (nx ny nz : ℕ) : Axis → ℕ
  | .X => nx
  | .Y => ny
  | .Z => nz

/-- Axis selection of shadow_step_budget, mirroring axis_choose.sv: the
minimum accumulator wins, ties broken X, then Y, then Z. -/
def chooseAxis (nx ny nz : ℕ) : Axis :=
  if nx ≤ ny ∧ nx ≤ nz then .X
  else if ny ≤ nz then .Y
  else .Z

/-- Per-ray constants of the simulated traversal. -/
structure SimParams where
  step_x : ℤ
  step_y : ℤ
  step_z : ℤ
  inc_x : ℕ
  inc_y : ℕ
  inc_z : ℕ
deriving DecidableEq, Repr

/-- Mutable state of the simulated traversal. -/
structure SimState where
  ix : ℤ
  iy : ℤ
  iz : ℤ
  next_x : ℕ
  next_y : ℕ
  next_z : ℕ
  steps : ℕ
deriving DecidableEq, Repr

/-- Advance one named axis: move its voxel coordinate by the step sign, add
its increment to its accumulator, count the step. -/
def advanceAxis (p : SimParams) (st : SimState) : Axis → SimState
  | .X => { st with ix := st.ix + p.step_x, next_x := st.next_x + p.inc_x,
                    steps := st.steps + 1 }
  | .Y => { st with iy := st.iy + p.step_y, next_y := st.next_y + p.inc_y,
                    steps := st.steps + 1 }
  | .Z => { st with iz := st.iz + p.step_z, next_z := st.next_z + p.inc_z,
                    steps := st.steps + 1 }

/-- One iteration of the shadow_step_budget loop body after the stop test:
advance the chosen axis. -/
def advance (p : SimParams) (st : SimState) : SimState :=
  advanceAxis p st (chooseAxis st.next_x st.next_y st.next_z)

/-- Minimum of the three boundary-distance accumulators. -/
def minNext (st : SimState) : ℕ := min st.next_x (min st.next_y st.next_z)

/-- The out-of-bounds test of the loop: any coordinate outside [0,31]. -/
def simOutOfBounds (st : SimState) : Bool :=
  decide (st.ix < 0) || decide (31 < st.ix) ||
  decide (st.iy < 0) || decide (31 < st.iy) ||
  decide (st.iz < 0) || decide (31 < st.iz)

/-- The loop of shadow_step_budget: fuel models the range(2048) ceiling.
Stop before stepping once the minimum accumulator reaches the target; after
stepping, stop on out-of-bounds or at the 1023-step cap. -/
def budgetLoop (p : SimParams) (tEnd : ℕ) : ℕ → SimState → ℕ
  | 0, st => st.steps
  | fuel + 1, st =>
    if tEnd ≤ minNext st then st.steps
    else if simOutOfBounds (advance p st) then (advance p st).steps
    else if 1023 ≤ (advance p st).steps then (advance p st).steps
    else budgetLoop p tEnd fuel (advance p st)

/-- Step signs and increments read from the job fields. -/
def simParamsOf (job : RayJob) : SimParams :=
  ⟨if job.sx = 1 then 1 else -1,
   if job.sy = 1 then 1 else -1,
   if job.sz = 1 then 1 else -1,
   job.inc_x, job.inc_y, job.inc_z⟩

/-- Start state of the simulated traversal, read from the job fields. -/
def simInit (job : RayJob) : SimState :=
  ⟨job.ix0, job.iy0, job.iz0, job.next_x, job.next_y, job.next_z, 0⟩

/-- test_raytracer.shadow_step_budget: 0 for an invalid job, otherwise the
step count reached by the simulated traversal. -/
def shadow_step_budget (job : RayJob) (t_end_fx : ℕ) : ℕ :=
  if job.valid = 0 then 0
  else budgetLoop (simParamsOf job) t_end_fx 2048 (simInit job)

/-- One counted step of the simulated traversal: taken only while the
minimum accumulator is still strictly below the target distance. -/
inductive SimStep (p : SimParams) (tEnd : ℕ) : SimState → SimState → Prop
  | step (st : SimState) (hm : minNext st < tEnd) : SimStep p tEnd st (advance p st)

/-- A vector of three real components, for the shading stage. -/
structure Vec3R where
  x : ℝ
  y : ℝ
  z : ℝ

/-- Componentwise negation. -/
def negV (v : Vec3R) : Vec3R := ⟨-v.x, -v.y, -v.z⟩

/-- Componentwise subtraction. -/
def subV (a b : Vec3R) : Vec3R := ⟨a.x - b.x, a.y - b.y, a.z - b.z⟩

/-- The step direction encoded by each face id (step_update.sv encoding:
0 steps +X, 1 steps -X, 2 steps +Y, 3 steps -Y, 4 steps +Z, 5 steps -Z). -/
def stepDir : Fin 6 → Vec3R
  | 0 => ⟨1, 0, 0⟩
  | 1 => ⟨-1, 0, 0⟩
  | 2 => ⟨0, 1, 0⟩
  | 3 => ⟨0, -1, 0⟩
  | 4 => ⟨0, 0, 1⟩
  | 5 => ⟨0, 0, -1⟩

/-- The FACE_NORMALS table of test_raytracer: outward surface normal per
face id. -/
def FACE_NORMALS : Fin 6 → Vec3R
  | 0 => ⟨-1, 0, 0⟩
  | 1 => ⟨1, 0, 0⟩
  | 2 => ⟨0, -1, 0⟩
  | 3 => ⟨0, 1, 0⟩
  | 4 => ⟨0, 0, -1⟩
  | 5 => ⟨0, 0, 1⟩

/-- Dot product. -/
noncomputable def dot3 (a b : Vec3R) : ℝ := a.x * b.x + a.y * b.y + a.z * b.z

/-- Euclidean norm. -/
noncomputable def norm3 (v : Vec3R) : ℝ := Real.sqrt (dot3 v v)

/-- test_raytracer._normalize: unit vector, or the input unchanged when its
length is at most 1e-12. -/
noncomputable def normalizeV (v : Vec3R) : Vec3R :=
  if 1e-12 < norm3 v then ⟨v.x / norm3 v, v.y / norm3 v, v.z / norm3 v⟩ else v

/-- The diffuse term of test_render_image: dot of the face normal with the
normalized direction to the light, clamped below at zero. -/
noncomputable def shadeDiffuse (normal hit_pos light_pos : Vec3R) : ℝ :=
  if dot3 normal (normalizeV (subV light_pos hit_pos)) ≤ 0 then 0
  else dot3 normal (normalizeV (subV light_pos hit_pos))

/-- The ambient floor constant of test_raytracer. -/
noncomputable def AMBIENT : ℝ := 0.12

/-- The brightness formula of test_render_image. -/
noncomputable def brightnessOf (ambient diff : ℝ) : ℝ :=
  ambient + (1 - ambient) * min 1 (max 0 diff)

/-- Outcome of one oracle round-trip for a shadow ray: a handshake timeout,
a miss, or a hit at a voxel. -/
inductive OracleResult where
  | timeout
  | miss
  | hit (x y z : ℕ)
deriving DecidableEq, Repr

/-- Decision logic of test_raytracer._is_shadowed_to_light, with the oracle
round-trip abstracted into its observable outcome: not shadowed when the
light is essentially at the surface, when the shadow job is invalid, on
timeout, on miss, or on a self-hit at the originating voxel; shadowed on a
hit anywhere else. -/
def is_shadowed_to_light (dist : ℚ) (jobValid : Bool) (res : OracleResult)
    (x0 y0 z0 : ℕ) : Bool :=
  if dist ≤ 1e-6 then false
  else if jobValid = false then false
  else
    match res with
    | .timeout => false
    | .miss => false
    | .hit sx sy sz => !(decide (sx = x0) && decide (sy = y0) && decide (sz = z0))

/-- The shadow application in test_render_image: a shadowed pixel has its
diffuse term forced to zero, otherwise the diffuse term is preserved. -/
noncomputable def applyShadow (diff : ℝ) (shadowed : Bool) : ℝ :=
  if shadowed then 0 else diff

/-- Rounding never goes below the floor, and at most one above it. -/
lemma pyRound_bounds (q : ℚ) : ⌊q⌋ ≤ pyRound q ∧ pyRound q ≤ ⌊q⌋ + 1 := by
  unfold pyRound
  split_ifs <;> omega

/-- Rounding a non-negative rational gives a non-negative integer. -/
lemma pyRound_nonneg {q : ℚ} (hq : 0 ≤ q) : 0 ≤ pyRound q := by
  have h0 : (0 : ℤ) ≤ ⌊q⌋ := Int.floor_nonneg.mpr hq
  have := (pyRound_bounds q).1
  omega

/-- Rounding an integral rational is exact. -/
lemma pyRound_int (q : ℚ) (h : q.den = 1) : pyRound q = ⌊q⌋ := by
  have hq : ((q.num : ℚ)) = q := by
    conv_rhs => rw [← Rat.num_div_den q]
    rw [h]
    norm_num
  have hfl : (⌊q⌋ : ℚ) = q := by rw [← hq, Int.floor_intCast]
  have hfr : q - (⌊q⌋ : ℚ) = 0 := by rw [hfl]; ring
  unfold pyRound
  rw [if_pos (by rw [hfr]; norm_num)]

/-- Truncation toward zero of a non-negative rational is the floor. -/
lemma truncQ_of_nonneg {q : ℚ} (hq : 0 ≤ q) : truncQ q = ⌊q⌋ := by
  unfold truncQ
  exact if_pos hq

/-- Closed form of to_fixed on a finite non-negative input, at integer
level: the rounded scaled value clamped into the representable range. -/
lemma to_fixed_fin_eq (wbits frac : ℕ) (q : ℚ) (hq : 0 ≤ q) :
    (to_fixed (FloatVal.fin q) wbits frac : ℤ) =
      max 0 (min (pyRound (q * 2 ^ frac)) ((2 ^ wbits - 1 : ℕ) : ℤ)) := by
  have hq2 : (0 : ℚ) ≤ q * 2 ^ frac := by positivity
  have hr : 0 ≤ pyRound (q * 2 ^ frac) := pyRound_nonneg hq2
  simp only [to_fixed]
  rw [if_neg (not_lt.mpr hq), if_neg (not_lt.mpr hr)]
  split_ifs with h
  · omega
  · rw [Int.toNat_of_nonneg hr]; omega

/-- Closed form of to_fixed_nonneg on a finite non-negative input: the
truncated scaled value clamped into the representable range. -/
lemma to_fixed_nonneg_fin_eq (wbits frac : ℕ) (q : ℚ) (hq : 0 ≤ q) :
    (to_fixed_nonneg (FloatVal.fin q) wbits frac : ℤ) =
      max 0 (min ⌊q * 2 ^ frac⌋ ((2 ^ wbits - 1 : ℕ) : ℤ)) := by
  have hq2 : (0 : ℚ) ≤ q * 2 ^ frac := by positivity
  have hfl : (0 : ℤ) ≤ ⌊q * 2 ^ frac⌋ := Int.floor_nonneg.mpr hq2
  simp only [to_fixed_nonneg]
  rw [truncQ_of_nonneg hq2, if_neg (not_lt.mpr hq), if_neg (not_lt.mpr hfl)]
  split_ifs with h
  · omega
  · rw [Int.toNat_of_nonneg hfl]; omega

/-- C4: for every input x and format (W,F), the fixed-point encoder returns
round(x * 2^F) clamped into [0, 2^W - 1] when x is finite and non-negative,
and returns the maximum code 2^W - 1 for every non-finite or negative x.
The embedding is a total function, so no input raises. -/
theorem to_fixed_spec (wbits frac : ℕ) :
    (∀ q : ℚ, 0 ≤ q →
      (to_fixed (FloatVal.fin q) wbits frac : ℤ) =
        max 0 (min (pyRound (q * 2 ^ frac)) ((2 ^ wbits - 1 : ℕ) : ℤ))) ∧
    (∀ q : ℚ, q < 0 → to_fixed (FloatVal.fin q) wbits frac = 2 ^ wbits - 1) ∧
    to_fixed FloatVal.nonfinite wbits frac = 2 ^ wbits - 1 := by
  refine ⟨fun q hq => to_fixed_fin_eq wbits frac q hq, fun q hq => ?_, rfl⟩
  simp only [to_fixed]
  rw [if_pos hq]

/-- Witness for C4 at x = 3/2, W = 8, F = 1. -/
theorem to_fixed_spec_witness :
    (0 ≤ (3/2 : ℚ)) ∧
    (to_fixed (FloatVal.fin (3/2)) 8 1 : ℤ) =
      max 0 (min (pyRound ((3/2 : ℚ) * 2 ^ 1)) ((2 ^ 8 - 1 : ℕ) : ℤ)) :=
  ⟨by norm_num, (to_fixed_spec 8 1).1 (3/2) (by norm_num)⟩

/-- Counterexample to C5: at x = 3/2^17 in format (24,16) the scaled value
is 3/2, which the job-file encoder rounds to 2 while the shadow-budget
encoder truncates to 1. -/
theorem round_trunc_encoders_disagree :
    to_fixed (FloatVal.fin (3/131072)) 24 16 = 2 ∧
    to_fixed_nonneg (FloatVal.fin (3/131072)) 24 16 = 1 ∧
    to_fixed (FloatVal.fin (3/131072)) 24 16 ≠
      to_fixed_nonneg (FloatVal.fin (3/131072)) 24 16 := by
  have hq : ((3 : ℚ)/131072) * 2 ^ 16 = 3/2 := by norm_num
  have hfl : ⌊(3/2 : ℚ)⌋ = 1 := by norm_num [Int.floor_eq_iff]
  have hpr : pyRound (3/2 : ℚ) = 2 := by
    unfold pyRound
    rw [hfl]
    norm_num
  have htr : truncQ (3/2 : ℚ) = 1 := by
    rw [truncQ_of_nonneg (by norm_num), hfl]
  have h1 : to_fixed (FloatVal.fin (3/131072)) 24 16 = 2 := by
    simp only [to_fixed]
    rw [hq, hpr, if_neg (by norm_num), if_neg (by norm_num), if_neg (by norm_num)]
    rfl
  have h2 : to_fixed_nonneg (FloatVal.fin (3/131072)) 24 16 = 1 := by
    simp only [to_fixed_nonneg]
    rw [hq, htr, if_neg (by norm_num), if_neg (by norm_num), if_neg (by norm_num)]
    rfl
  exact ⟨h1, h2, by rw [h1, h2]; norm_num⟩

/-- C5 amended: for every finite non-negative x and format (W,F), the
truncating encoder is never above the rounding encoder and at most one code
below it, and the two agree whenever x * 2^F is an integer. -/
theorem round_trunc_encoders_compare (wbits frac : ℕ) (q : ℚ) (hq : 0 ≤ q) :
    to_fixed_nonneg (FloatVal.fin q) wbits frac ≤
      to_fixed (FloatVal.fin q) wbits frac ∧
    to_fixed (FloatVal.fin q) wbits frac ≤
      to_fixed_nonneg (FloatVal.fin q) wbits frac + 1 ∧
    ((q * 2 ^ frac).den = 1 →
      to_fixed (FloatVal.fin q) wbits frac =
        to_fixed_nonneg (FloatVal.fin q) wbits frac) := by
  have h1 := to_fixed_fin_eq wbits frac q hq
  have h2 := to_fixed_nonneg_fin_eq wbits frac q hq
  have hb := pyRound_bounds (q * 2 ^ frac)
  refine ⟨?_, ?_, ?_⟩
  · have : (to_fixed_nonneg (FloatVal.fin q) wbits frac : ℤ) ≤
        (to_fixed (FloatVal.fin q) wbits frac : ℤ) := by
      rw [h1, h2]; omega
    exact_mod_cast this
  · have : (to_fixed (FloatVal.fin q) wbits frac : ℤ) ≤
        (to_fixed_nonneg (FloatVal.fin q) wbits frac : ℤ) + 1 := by
      rw [h1, h2]; omega
    exact_mod_cast this
  · intro hden
    have hint := pyRound_int (q * 2 ^ frac) hden
    have : (to_fixed (FloatVal.fin q) wbits frac : ℤ) =
        (to_fixed_nonneg (FloatVal.fin q) wbits frac : ℤ) := by
      rw [h1, h2, hint]
    exact_mod_cast this

/-- Witness for the amended C5 at x = 1/4, W = 8, F = 2. -/
theorem round_trunc_encoders_compare_witness :
    (0 ≤ (1/4 : ℚ)) ∧
    to_fixed (FloatVal.fin (1/4)) 8 2 = to_fixed_nonneg (FloatVal.fin (1/4)) 8 2 :=
  ⟨by norm_num, (round_trunc_encoders_compare 8 2 (1/4) (by norm_num)).2.2
    (by rw [show ((1/4 : ℚ) * 2 ^ 2) = 1 by norm_num]; rfl)⟩

/-- Parallel-axis branch of the slab loop with the origin inside the slab:
the running interval is unchanged. -/
lemma slabAxis_par (o d lo hi : ℚ) (st : Option ℚ × Option ℚ)
    (hd : |d| < EPS_DIR) (ho : ¬(o < lo ∨ hi < o)) :
    slabAxis o d lo hi st = some st := by
  unfold slabAxis
  rw [if_pos hd, if_neg ho]

/-- Active-axis branch of the slab loop, spelled out. -/
lemma slabAxis_act (o d lo hi : ℚ) (st : Option ℚ × Option ℚ)
    (hd : ¬ |d| < EPS_DIR) :
    slabAxis o d lo hi st =
      (let t0 := (lo - o) * (1 / d)
       let t1 := (hi - o) * (1 / d)
       let p := if t1 < t0 then (t1, t0) else (t0, t1)
       if updMax st.2 p.2 < updMin st.1 p.1 then none
       else some (some (updMin st.1 p.1), some (updMax st.2 p.2))) := by
  unfold slabAxis
  rw [if_neg hd]

/-- Updating a non-positive tmin with a non-positive value stays
non-positive. -/
lemma updMin_le0 {cur : Option ℚ} {t : ℚ} (hc : entryLE0 cur) (ht : t ≤ 0) :
    updMin cur t ≤ 0 := by
  cases cur with
  | none => exact ht
  | some a => exact max_le hc ht

/-- Updating a non-negative tmax with a non-negative value stays
non-negative. -/
lemma updMax_ge0 {cur : Option ℚ} {t : ℚ} (hc : exitGE0 cur) (ht : 0 ≤ t) :
    0 ≤ updMax cur t := by
  cases cur with
  | none => exact ht
  | some b => exact le_min hc ht

/-- With the origin strictly inside the slab on this axis, the slab step
keeps an interval that straddles zero. -/
lemma slabAxis_inside (o d lo hi : ℚ) (st : Option ℚ × Option ℚ)
    (h1 : lo < o) (h2 : o < hi) (ha : entryLE0 st.1) (hb : exitGE0 st.2) :
    ∃ a b : Option ℚ, slabAxis o d lo hi st = some (a, b) ∧
      entryLE0 a ∧ exitGE0 b := by
  by_cases hd : |d| < EPS_DIR
  · refine ⟨st.1, st.2, ?_, ha, hb⟩
    rw [slabAxis_par o d lo hi st hd (by push_neg; exact ⟨le_of_lt h1, le_of_lt h2⟩)]
  · have hd0 : d ≠ 0 := by
      intro h
      apply hd
      rw [h, abs_zero, EPS_DIR]
      norm_num
    rw [slabAxis_act o d lo hi st hd]
    simp only []
    rcases hd0.lt_or_lt with hneg | hpos
    · have hinv : (1 : ℚ) / d < 0 := one_div_neg.mpr hneg
      have ht0 : 0 < (lo - o) * (1 / d) := mul_pos_of_neg_of_neg (by linarith) hinv
      have ht1 : (hi - o) * (1 / d) < 0 := mul_neg_of_pos_of_neg (by linarith) hinv
      rw [if_pos (lt_trans ht1 ht0)]
      simp only []
      have hA : updMin st.1 ((hi - o) * (1 / d)) ≤ 0 := updMin_le0 ha (le_of_lt ht1)
      have hB : 0 ≤ updMax st.2 ((lo - o) * (1 / d)) := updMax_ge0 hb (le_of_lt ht0)
      rw [if_neg (not_lt.mpr (le_trans hA hB))]
      exact ⟨_, _, rfl, hA, hB⟩
    · have hinv : 0 < (1 : ℚ) / d := one_div_pos.mpr hpos
      have ht0 : (lo - o) * (1 / d) < 0 := mul_neg_of_neg_of_pos (by linarith) hinv
      have ht1 : 0 < (hi - o) * (1 / d) := mul_pos (by linarith) hinv
      rw [if_neg (not_lt.mpr (le_of_lt (lt_trans ht0 ht1)))]
      simp only []
      have hA : updMin st.1 ((lo - o) * (1 / d)) ≤ 0 := updMin_le0 ha (le_of_lt ht0)
      have hB : 0 ≤ updMax st.2 ((hi - o) * (1 / d)) := updMax_ge0 hb (le_of_lt ht1)
      rw [if_neg (not_lt.mpr (le_trans hA hB))]
      exact ⟨_, _, rfl, hA, hB⟩

/-- C8: for every ray whose origin lies strictly inside the world box and
whose direction is non-zero, the slab resolver reports a hit whose entry
distance is at most zero and whose exit distance is at least zero. -/
theorem intersect_aabb_inside_hit (o d : Vec3)
    (hx : 0 < o.x ∧ o.x < 32) (hy : 0 < o.y ∧ o.y < 32)
    (hz : 0 < o.z ∧ o.z < 32) (hd : d ≠ ⟨0, 0, 0⟩) :
    (intersect_aabb o d WORLD_MIN WORLD_MAX).hit = true ∧
    entryLE0 (intersect_aabb o d WORLD_MIN WORLD_MAX).tEnter ∧
    exitGE0 (intersect_aabb o d WORLD_MIN WORLD_MAX).tExit := by
  unfold intersect_aabb
  rw [show WORLD_MIN = ⟨0, 0, 0⟩ from rfl, show WORLD_MAX = ⟨32, 32, 32⟩ from rfl]
  obtain ⟨a1, b1, e1, ha1, hb1⟩ :=
    slabAxis_inside o.x d.x 0 32 (none, none) hx.1 hx.2 trivial trivial
  rw [e1]
  simp only []
  obtain ⟨a2, b2, e2, ha2, hb2⟩ :=
    slabAxis_inside o.y d.y 0 32 (a1, b1) hy.1 hy.2 ha1 hb1
  rw [e2]
  simp only []
  obtain ⟨a3, b3, e3, ha3, hb3⟩ :=
    slabAxis_inside o.z d.z 0 32 (a2, b2) hz.1 hz.2 ha2 hb2
  rw [e3]
  exact ⟨rfl, ha3, hb3⟩

/-- Witness for C8 at origin (16,16,16) and direction (0,0,1). -/
theorem intersect_aabb_inside_hit_witness :
    ((0 : ℚ) < 16 ∧ (16 : ℚ) < 32) ∧ (Vec3.mk 0 0 1 ≠ Vec3.mk 0 0 0) ∧
    (intersect_aabb ⟨16, 16, 16⟩ ⟨0, 0, 1⟩ WORLD_MIN WORLD_MAX).hit = true ∧
    entryLE0 (intersect_aabb ⟨16, 16, 16⟩ ⟨0, 0, 1⟩ WORLD_MIN WORLD_MAX).tEnter ∧
    exitGE0 (intersect_aabb ⟨16, 16, 16⟩ ⟨0, 0, 1⟩ WORLD_MIN WORLD_MAX).tExit :=
  ⟨⟨by norm_num, by norm_num⟩, by simp [Vec3.mk.injEq],
   intersect_aabb_inside_hit ⟨16, 16, 16⟩ ⟨0, 0, 1⟩
     ⟨by norm_num, by norm_num⟩ ⟨by norm_num, by norm_num⟩
     ⟨by norm_num, by norm_num⟩ (by simp [Vec3.mk.injEq])⟩

/-- The two branches of make_option_b_job, with the condition that chose
them. -/
lemma make_job_eq (o d : Vec3) (wbits frac : ℕ) (ms : ℤ) :
    (make_option_b_job o d wbits frac ms = invalidJob ∧
      ((intersect_aabb o d WORLD_MIN WORLD_MAX).hit = false ∨
       tExitNeg (intersect_aabb o d WORLD_MIN WORLD_MAX).tExit = true)) ∨
    (make_option_b_job o d wbits frac ms =
        validJobFor o d (intersect_aabb o d WORLD_MIN WORLD_MAX).tEnter wbits frac ms ∧
      ¬((intersect_aabb o d WORLD_MIN WORLD_MAX).hit = false ∨
        tExitNeg (intersect_aabb o d WORLD_MIN WORLD_MAX).tExit = true)) := by
  simp only [make_option_b_job]
  split_ifs with h
  · exact Or.inl ⟨rfl, h⟩
  · exact Or.inr ⟨rfl, h⟩

/-- The valid flag of the valid branch is one. -/
lemma validJobFor_valid (o d : Vec3) (te : Option ℚ) (wbits frac : ℕ) (ms : ℤ) :
    (validJobFor o d te wbits frac ms).valid = 1 := rfl

/-- Counterexample input for C3: a ray that leaves the box at parametric
distance exactly zero. -/
lemma aabb_zero_exit_eval :
    intersect_aabb ⟨0, 16, 16⟩ ⟨-1, 0, 0⟩ WORLD_MIN WORLD_MAX =
      ⟨true, some (-32), some 0⟩ := by
  have hx : slabAxis 0 (-1) 0 32 ((none : Option ℚ), (none : Option ℚ)) =
      some (some (-32), some 0) := by
    rw [slabAxis_act _ _ _ _ _ (by rw [EPS_DIR]; norm_num)]
    norm_num [updMin, updMax]
  have hy : slabAxis 16 0 0 32 ((some (-32) : Option ℚ), (some 0 : Option ℚ)) =
      some (some (-32), some 0) := by
    rw [slabAxis_par _ _ _ _ _ (by rw [abs_zero, EPS_DIR]; norm_num) (by norm_num)]
  unfold intersect_aabb
  rw [show WORLD_MIN = ⟨0, 0, 0⟩ from rfl, show WORLD_MAX = ⟨32, 32, 32⟩ from rfl]
  simp only [hx, hy]

/-- A ray outside the box, parallel to every axis: the resolver misses. -/
lemma aabb_miss_eval :
    intersect_aabb ⟨33, 16, 16⟩ ⟨0, 0, 0⟩ WORLD_MIN WORLD_MAX =
      ⟨false, some 0, some 0⟩ := by
  have hx : slabAxis 33 0 0 32 ((none : Option ℚ), (none : Option ℚ)) = none := by
    unfold slabAxis
    rw [if_pos (by rw [abs_zero, EPS_DIR]; norm_num),
        if_pos (Or.inr (by norm_num))]
  unfold intersect_aabb
  rw [show WORLD_MIN = ⟨0, 0, 0⟩ from rfl, show WORLD_MAX = ⟨32, 32, 32⟩ from rfl]
  simp only [hx]

/-- Counterexample to C3: the ray from (0,16,16) along (-1,0,0) exits the
box at distance exactly zero; the resolver reports a hit with t_exit = 0
(non-positive), yet the encoder emits valid = 1, because the code tests
t_exit < 0 strictly. -/
theorem job_valid_on_zero_exit :
    (intersect_aabb ⟨0, 16, 16⟩ ⟨-1, 0, 0⟩ WORLD_MIN WORLD_MAX).hit = true ∧
    (intersect_aabb ⟨0, 16, 16⟩ ⟨-1, 0, 0⟩ WORLD_MIN WORLD_MAX).tExit = some 0 ∧
    (make_option_b_job ⟨0, 16, 16⟩ ⟨-1, 0, 0⟩ 24 16 512).valid = 1 := by
  refine ⟨by rw [aabb_zero_exit_eval], by rw [aabb_zero_exit_eval], ?_⟩
  rcases make_job_eq ⟨0, 16, 16⟩ ⟨-1, 0, 0⟩ 24 16 512 with ⟨_, hc⟩ | ⟨he, _⟩
  · rw [aabb_zero_exit_eval] at hc
    rcases hc with hc | hc
    · exact absurd hc (by norm_num)
    · simp only [tExitNeg, decide_eq_true_eq] at hc
      exact absurd hc (by norm_num)
  · rw [he, validJobFor_valid]

/-- C3 amended: the encoder outputs valid = 0 exactly when the resolver
reported no intersection or a strictly negative exit distance (t_exit < 0);
at t_exit = 0 the job is still valid. -/
theorem make_option_b_job_valid_iff (o d : Vec3) (wbits frac : ℕ) (ms : ℤ) :
    (make_option_b_job o d wbits frac ms).valid = 0 ↔
      ((intersect_aabb o d WORLD_MIN WORLD_MAX).hit = false ∨
       tExitNeg (intersect_aabb o d WORLD_MIN WORLD_MAX).tExit = true) := by
  rcases make_job_eq o d wbits frac ms with ⟨he, hc⟩ | ⟨he, hc⟩
  · rw [he]
    exact ⟨fun _ => hc, fun _ => rfl⟩
  · rw [he, validJobFor_valid]
    exact ⟨fun h1 => absurd h1 one_ne_zero, fun h1 => absurd h1 hc⟩

/-- Witness for the amended C3: a missing ray gets valid = 0. -/
theorem make_option_b_job_valid_iff_witness :
    (make_option_b_job ⟨33, 16, 16⟩ ⟨0, 0, 0⟩ 24 16 512).valid = 0 :=
  (make_option_b_job_valid_iff ⟨33, 16, 16⟩ ⟨0, 0, 0⟩ 24 16 512).mpr
    (Or.inl (by rw [aabb_miss_eval]))

/-- The advance function counts exactly one step. -/
lemma advance_steps (p : SimParams) (st : SimState) :
    (advance p st).steps = st.steps + 1 := by
  unfold advance
  cases chooseAxis st.next_x st.next_y st.next_z <;> rfl

/-- The budget loop, started below the step cap with enough fuel, returns
the step count of a state reached by counted steps, at which the target is
reached, the grid was left, or the step cap was hit; the count never
exceeds 1023. -/
lemma budgetLoop_spec (p : SimParams) (tEnd : ℕ) :
    ∀ (fuel : ℕ) (st : SimState), st.steps < 1023 → 1024 ≤ st.steps + fuel →
      ∃ last : SimState,
        Relation.ReflTransGen (SimStep p tEnd) st last ∧
        budgetLoop p tEnd fuel st = last.steps ∧
        (tEnd ≤ minNext last ∨ simOutOfBounds last = true ∨ last.steps = 1023) ∧
        last.steps ≤ 1023 := by
  intro fuel
  induction fuel with
  | zero => intro st h1 h2; omega
  | succ n ih =>
    intro st h1 h2
    by_cases hstop : tEnd ≤ minNext st
    · exact ⟨st, Relation.ReflTransGen.refl,
        by rw [budgetLoop, if_pos hstop], Or.inl hstop, le_of_lt h1⟩
    · have hstep : SimStep p tEnd st (advance p st) :=
        SimStep.step st (lt_of_not_le hstop)
      have hsteps := advance_steps p st
      by_cases hoob : simOutOfBounds (advance p st) = true
      · refine ⟨advance p st, Relation.ReflTransGen.single hstep, ?_,
          Or.inr (Or.inl hoob), by omega⟩
        rw [budgetLoop, if_neg hstop, if_pos hoob]
      · by_cases hcap : 1023 ≤ (advance p st).steps
        · refine ⟨advance p st, Relation.ReflTransGen.single hstep, ?_,
            Or.inr (Or.inr (by omega)), by omega⟩
          rw [budgetLoop, if_neg hstop, if_neg hoob, if_pos hcap]
        · obtain ⟨last, hreach, heq, hcase, hle⟩ := ih (advance p st) (by omega) (by omega)
          refine ⟨last, Relation.ReflTransGen.head hstep hreach, ?_, hcase, hle⟩
          rw [budgetLoop, if_neg hstop, if_neg hoob, if_neg hcap, heq]

/-- C1: for every valid job and fixed-point target distance, the simulator
terminates (it is a total function) with a step count reached by counted
steps, each taken only while the minimum accumulator was still below the
target; at the final state either the minimum accumulator has reached or
exceeded the target (that pending step left uncounted), or a voxel
coordinate has left [0,31], or the defensive step ceiling was reached. -/
theorem shadow_step_budget_spec (job : RayJob) (t_end_fx : ℕ)
    (hv : job.valid ≠ 0) :
    ∃ last : SimState,
      Relation.ReflTransGen (SimStep (simParamsOf job) t_end_fx) (simInit job) last ∧
      shadow_step_budget job t_end_fx = last.steps ∧
      (t_end_fx ≤ minNext last ∨ simOutOfBounds last = true ∨ last.steps = 1023) := by
  obtain ⟨last, h1, h2, h3, _⟩ :=
    budgetLoop_spec (simParamsOf job) t_end_fx 2048 (simInit job)
      (by show (0 : ℕ) < 1023; norm_num) (by show 1024 ≤ 0 + 2048; norm_num)
  refine ⟨last, h1, ?_, h3⟩
  unfold shadow_step_budget
  rw [if_neg hv, h2]

/-- Witness for C1 at a concrete valid job and target distance. -/
theorem shadow_step_budget_spec_witness :
    ((⟨0, 0, 0, 1, 1, 1, 10, 20, 30, 100, 100, 100, 512, 1⟩ : RayJob).valid ≠ 0) ∧
    ∃ last : SimState,
      Relation.ReflTransGen
        (SimStep (simParamsOf ⟨0, 0, 0, 1, 1, 1, 10, 20, 30, 100, 100, 100, 512, 1⟩) 500)
        (simInit ⟨0, 0, 0, 1, 1, 1, 10, 20, 30, 100, 100, 100, 512, 1⟩) last ∧
      shadow_step_budget ⟨0, 0, 0, 1, 1, 1, 10, 20, 30, 100, 100, 100, 512, 1⟩ 500 =
        last.steps ∧
      (500 ≤ minNext last ∨ simOutOfBounds last = true ∨ last.steps = 1023) :=
  ⟨by decide, shadow_step_budget_spec ⟨0, 0, 0, 1, 1, 1, 10, 20, 30, 100, 100, 100, 512, 1⟩
    500 (by decide)⟩

/-- C2: the chosen axis always carries the minimum accumulator, X wins any
tie with Y and with Z, Y wins any tie with Z, and three equal accumulators
make the simulator advance axis X. -/
theorem chooseAxis_spec (nx ny nz : ℕ) :
    axisNext nx ny nz (chooseAxis nx ny nz) = min nx (min ny nz) ∧
    (chooseAxis nx ny nz = Axis.X ↔ nx ≤ ny ∧ nx ≤ nz) ∧
    (chooseAxis nx ny nz = Axis.Y ↔ ny < nx ∧ ny ≤ nz) ∧
    (chooseAxis nx ny nz = Axis.Z ↔ nz < nx ∧ nz < ny) ∧
    (nx = ny → ny = nz →
      ∀ (p : SimParams) (st : SimState),
        st.next_x = nx → st.next_y = ny → st.next_z = nz →
        advance p st = advanceAxis p st Axis.X) := by
  have hX : chooseAxis nx ny nz = Axis.X ↔ nx ≤ ny ∧ nx ≤ nz := by
    unfold chooseAxis
    split_ifs with h1 h2 <;> simp <;> omega
  have hY : chooseAxis nx ny nz = Axis.Y ↔ ny < nx ∧ ny ≤ nz := by
    unfold chooseAxis
    split_ifs with h1 h2 <;> simp <;> omega
  have hZ : chooseAxis nx ny nz = Axis.Z ↔ nz < nx ∧ nz < ny := by
    unfold chooseAxis
    split_ifs with h1 h2 <;> simp <;> omega
  have hmin : axisNext nx ny nz (chooseAxis nx ny nz) = min nx (min ny nz) := by
    unfold chooseAxis
    split_ifs with h1 h2 <;> simp [axisNext] <;> omega
  refine ⟨hmin, hX, hY, hZ, ?_⟩
  intro h12 h23 p st ex ey ez
  unfold advance
  rw [ex, ey, ez, hX.mpr ⟨by omega, by omega⟩]

/-- Witness for C2 at three equal accumulators. -/
theorem chooseAxis_spec_witness :
    chooseAxis 7 7 7 = Axis.X ∧ axisNext 7 7 7 (chooseAxis 7 7 7) = min 7 (min 7 7) :=
  ⟨((chooseAxis_spec 7 7 7).2.1).mpr ⟨le_refl 7, le_refl 7⟩, (chooseAxis_spec 7 7 7).1⟩

/-- C10: the encoder clamps the step cap into [0,1023], and the shadow step
budget never exceeds 1023; both are natural numbers, hence at least 0. -/
theorem max_steps_range :
    (∀ (o d : Vec3) (wbits frac : ℕ) (ms : ℤ),
      (make_option_b_job o d wbits frac ms).max_steps ≤ 1023) ∧
    (∀ (job : RayJob) (t_end_fx : ℕ), shadow_step_budget job t_end_fx ≤ 1023) := by
  constructor
  · intro o d wbits frac ms
    rcases make_job_eq o d wbits frac ms with ⟨he, _⟩ | ⟨he, _⟩
    · rw [he]
      norm_num [invalidJob]
    · rw [he, show (validJobFor o d (intersect_aabb o d WORLD_MIN WORLD_MAX).tEnter
        wbits frac ms).max_steps = (max 0 (min ms 1023)).toNat from rfl]
      omega
  · intro job t_end_fx
    unfold shadow_step_budget
    split_ifs with h
    · norm_num
    · obtain ⟨last, _, heq, _, hle⟩ :=
        budgetLoop_spec (simParamsOf job) t_end_fx 2048 (simInit job)
          (by show (0 : ℕ) < 1023; norm_num) (by show 1024 ≤ 0 + 2048; norm_num)
      rw [heq]
      exact hle

/-- Concatenating equal-length blocks multiplies the length. -/
lemma flatMap_const_length {α β : Type} (f : α → List β) (n : ℕ) :
    ∀ l : List α, (∀ a ∈ l, (f a).length = n) →
      (l.flatMap f).length = l.length * n
  | [], _ => by simp
  | a :: l, h => by
    simp only [List.flatMap_cons, List.length_append, List.length_cons]
    rw [h a (List.mem_cons_self a l),
      flatMap_const_length f n l (fun b hb => h b (List.mem_cons_of_mem a hb))]
    ring

/-- C9: the record file gets exactly one line per pixel, and a valid = 0
line carries filler zeros in every field.  Job construction and recording
are total functions of the ray, so no ray raises. -/
theorem ray_jobs_lines_spec (w h : ℕ) (ray : ℕ → ℕ → Vec3 × Vec3)
    (wbits frac : ℕ) (ms : ℤ) :
    (rayJobsLines w h ray wbits frac ms).length = w * h ∧
    (∀ l ∈ rayJobsLines w h ray wbits frac ms, l.valid = 0 →
      l.ix0 = 0 ∧ l.iy0 = 0 ∧ l.iz0 = 0 ∧ l.sx = 0 ∧ l.sy = 0 ∧ l.sz = 0 ∧
      l.next_x = 0 ∧ l.next_y = 0 ∧ l.next_z = 0 ∧
      l.inc_x = 0 ∧ l.inc_y = 0 ∧ l.inc_z = 0 ∧ l.max_steps = 0) := by
  constructor
  · unfold rayJobsLines
    rw [flatMap_const_length _ w _ (fun py _ => by simp)]
    simp [Nat.mul_comm]
  · intro l hl hv
    unfold rayJobsLines at hl
    rw [List.mem_flatMap] at hl
    obtain ⟨py, _, hl⟩ := hl
    rw [List.mem_map] at hl
    obtain ⟨px, _, rfl⟩ := hl
    have hval : (make_option_b_job (ray px py).1 (ray px py).2 wbits frac ms).valid = 0 := hv
    have hinv : make_option_b_job (ray px py).1 (ray px py).2 wbits frac ms = invalidJob := by
      rcases make_job_eq (ray px py).1 (ray px py).2 wbits frac ms with ⟨he, _⟩ | ⟨he, _⟩
      · exact he
      · rw [he, validJobFor_valid] at hval
        exact absurd hval one_ne_zero
    rw [hinv]
    exact ⟨rfl, rfl, rfl, rfl, rfl, rfl, rfl, rfl, rfl, rfl, rfl, rfl, rfl⟩

/-- Witness for C9: a one-pixel image whose single ray misses the box. -/
theorem ray_jobs_lines_spec_witness :
    (rayJobsLines 1 1 (fun _ _ => (⟨33, 16, 16⟩, ⟨0, 0, 0⟩)) 24 16 512).length = 1 * 1 ∧
    ((jobLine 0 0 (make_option_b_job ⟨33, 16, 16⟩ ⟨0, 0, 0⟩ 24 16 512)).valid = 0) ∧
    ((jobLine 0 0 (make_option_b_job ⟨33, 16, 16⟩ ⟨0, 0, 0⟩ 24 16 512)).ix0 = 0 ∧
     (jobLine 0 0 (make_option_b_job ⟨33, 16, 16⟩ ⟨0, 0, 0⟩ 24 16 512)).iy0 = 0 ∧
     (jobLine 0 0 (make_option_b_job ⟨33, 16, 16⟩ ⟨0, 0, 0⟩ 24 16 512)).iz0 = 0 ∧
     (jobLine 0 0 (make_option_b_job ⟨33, 16, 16⟩ ⟨0, 0, 0⟩ 24 16 512)).sx = 0 ∧
     (jobLine 0 0 (make_option_b_job ⟨33, 16, 16⟩ ⟨0, 0, 0⟩ 24 16 512)).sy = 0 ∧
     (jobLine 0 0 (make_option_b_job ⟨33, 16, 16⟩ ⟨0, 0, 0⟩ 24 16 512)).sz = 0 ∧
     (jobLine 0 0 (make_option_b_job ⟨33, 16, 16⟩ ⟨0, 0, 0⟩ 24 16 512)).next_x = 0 ∧
     (jobLine 0 0 (make_option_b_job ⟨33, 16, 16⟩ ⟨0, 0, 0⟩ 24 16 512)).next_y = 0 ∧
     (jobLine 0 0 (make_option_b_job ⟨33, 16, 16⟩ ⟨0, 0, 0⟩ 24 16 512)).next_z = 0 ∧
     (jobLine 0 0 (make_option_b_job ⟨33, 16, 16⟩ ⟨0, 0, 0⟩ 24 16 512)).inc_x = 0 ∧
     (jobLine 0 0 (make_option_b_job ⟨33, 16, 16⟩ ⟨0, 0, 0⟩ 24 16 512)).inc_y = 0 ∧
     (jobLine 0 0 (make_option_b_job ⟨33, 16, 16⟩ ⟨0, 0, 0⟩ 24 16 512)).inc_z = 0 ∧
     (jobLine 0 0 (make_option_b_job ⟨33, 16, 16⟩ ⟨0, 0, 0⟩ 24 16 512)).max_steps = 0) := by
  have hv : (jobLine 0 0 (make_option_b_job ⟨33, 16, 16⟩ ⟨0, 0, 0⟩ 24 16 512)).valid = 0 := by
    show (make_option_b_job ⟨33, 16, 16⟩ ⟨0, 0, 0⟩ 24 16 512).valid = 0
    rcases make_job_eq ⟨33, 16, 16⟩ ⟨0, 0, 0⟩ 24 16 512 with ⟨he, _⟩ | ⟨_, hc⟩
    · rw [he]; rfl
    · exact absurd (Or.inl (by rw [aabb_miss_eval])) hc
  have hmem : jobLine 0 0 (make_option_b_job ⟨33, 16, 16⟩ ⟨0, 0, 0⟩ 24 16 512) ∈
      rayJobsLines 1 1 (fun _ _ => (⟨33, 16, 16⟩, ⟨0, 0, 0⟩)) 24 16 512 := by
    unfold rayJobsLines
    exact List.mem_flatMap.mpr ⟨0, by simp, List.mem_map.mpr ⟨0, by simp, rfl⟩⟩
  obtain ⟨hlen, hfill⟩ :=
    ray_jobs_lines_spec 1 1 (fun _ _ => (⟨33, 16, 16⟩, ⟨0, 0, 0⟩)) 24 16 512
  exact ⟨hlen, hv, hfill _ hmem hv⟩

/-- C6: for every face id the outward surface normal used by the shading
engine is the negation of the step direction encoded by the face id; a face
id encoding last step +Z (id 4) gives normal (0,0,-1), and for a hit point
on the z = 10 face of voxel (10,10,10) with the light directly above at
(10,10,60), the diffuse term clamps to exactly 0 and the brightness is the
ambient floor alone. -/
theorem face_normal_shading (i : Fin 6) (p : Vec3R)
    (hpz : p.z = 10) (hpx : 10 ≤ p.x ∧ p.x ≤ 11) (hpy : 10 ≤ p.y ∧ p.y ≤ 11) :
    FACE_NORMALS i = negV (stepDir i) ∧
    FACE_NORMALS 4 = ⟨0, 0, -1⟩ ∧
    shadeDiffuse (FACE_NORMALS 4) p ⟨10, 10, 60⟩ = 0 ∧
    brightnessOf AMBIENT (shadeDiffuse (FACE_NORMALS 4) p ⟨10, 10, 60⟩) = AMBIENT := by
  have hneg : FACE_NORMALS i = negV (stepDir i) := by
    fin_cases i <;> simp [FACE_NORMALS, stepDir, negV]
  have hFN4 : FACE_NORMALS 4 = ⟨0, 0, -1⟩ := rfl
  have hvz : (subV ⟨10, 10, 60⟩ p).z = 50 := by
    simp [subV, hpz]
    norm_num
  have hdotvv : dot3 (subV ⟨10, 10, 60⟩ p) (subV ⟨10, 10, 60⟩ p) =
      (10 - p.x) * (10 - p.x) + (10 - p.y) * (10 - p.y) + 50 * 50 := by
    simp [dot3, subV, hpz]
    ring
  have hge : (2500 : ℝ) ≤ dot3 (subV ⟨10, 10, 60⟩ p) (subV ⟨10, 10, 60⟩ p) := by
    rw [hdotvv]
    nlinarith [mul_self_nonneg (10 - p.x), mul_self_nonneg (10 - p.y)]
  have hnorm50 : (50 : ℝ) ≤ norm3 (subV ⟨10, 10, 60⟩ p) := by
    unfold norm3
    calc (50 : ℝ) = Real.sqrt 2500 := by
          rw [show (2500 : ℝ) = 50 ^ 2 by norm_num,
            Real.sqrt_sq (by norm_num : (0 : ℝ) ≤ 50)]
      _ ≤ _ := Real.sqrt_le_sqrt hge
  have hnormpos : (1e-12 : ℝ) < norm3 (subV ⟨10, 10, 60⟩ p) := by
    have : (1e-12 : ℝ) < 50 := by norm_num
    linarith
  have hnormalize : normalizeV (subV ⟨10, 10, 60⟩ p) =
      ⟨(subV ⟨10, 10, 60⟩ p).x / norm3 (subV ⟨10, 10, 60⟩ p),
       (subV ⟨10, 10, 60⟩ p).y / norm3 (subV ⟨10, 10, 60⟩ p),
       (subV ⟨10, 10, 60⟩ p).z / norm3 (subV ⟨10, 10, 60⟩ p)⟩ := by
    unfold normalizeV
    rw [if_pos hnormpos]
  have hdot : dot3 (FACE_NORMALS 4) (normalizeV (subV ⟨10, 10, 60⟩ p)) =
      -(50 / norm3 (subV ⟨10, 10, 60⟩ p)) := by
    rw [hFN4, hnormalize]
    simp [dot3, hvz]
  have hdivpos : (0 : ℝ) < 50 / norm3 (subV ⟨10, 10, 60⟩ p) :=
    div_pos (by norm_num) (by linarith)
  have hsd : shadeDiffuse (FACE_NORMALS 4) p ⟨10, 10, 60⟩ = 0 := by
    unfold shadeDiffuse
    rw [if_pos (by rw [hdot]; linarith)]
  refine ⟨hneg, hFN4, hsd, ?_⟩
  rw [hsd]
  unfold brightnessOf
  norm_num

/-- Witness for C6 at face id 4 and hit point (21/2, 21/2, 10). -/
theorem face_normal_shading_witness :
    ((⟨21/2, 21/2, 10⟩ : Vec3R).z = 10 ∧
     (10 ≤ (⟨21/2, 21/2, 10⟩ : Vec3R).x ∧ (⟨21/2, 21/2, 10⟩ : Vec3R).x ≤ 11) ∧
     (10 ≤ (⟨21/2, 21/2, 10⟩ : Vec3R).y ∧ (⟨21/2, 21/2, 10⟩ : Vec3R).y ≤ 11)) ∧
    shadeDiffuse (FACE_NORMALS 4) ⟨21/2, 21/2, 10⟩ ⟨10, 10, 60⟩ = 0 ∧
    brightnessOf AMBIENT (shadeDiffuse (FACE_NORMALS 4) ⟨21/2, 21/2, 10⟩ ⟨10, 10, 60⟩) =
      AMBIENT :=
  ⟨⟨by norm_num, ⟨by norm_num, by norm_num⟩, ⟨by norm_num, by norm_num⟩⟩,
   (face_normal_shading 4 ⟨21/2, 21/2, 10⟩ (by norm_num)
      ⟨by norm_num, by norm_num⟩ ⟨by norm_num, by norm_num⟩).2.2.1,
   (face_normal_shading 4 ⟨21/2, 21/2, 10⟩ (by norm_num)
      ⟨by norm_num, by norm_num⟩ ⟨by norm_num, by norm_num⟩).2.2.2⟩

/-- C7: a reported hit at any voxel other than the originating voxel makes
the shadow test positive, which forces the diffuse term to zero; a
handshake timeout, a miss, and a self-hit at the originating voxel all
leave the pixel not shadowed, and the diffuse term is then preserved. -/
theorem shadow_occlusion_spec (dist : ℚ) (jv : Bool) (res : OracleResult)
    (x0 y0 z0 : ℕ) (diff : ℝ) :
    (∀ sx sy sz : ℕ, res = OracleResult.hit sx sy sz →
      ¬(sx = x0 ∧ sy = y0 ∧ sz = z0) → jv = true → ¬ dist ≤ 1e-6 →
      is_shadowed_to_light dist jv res x0 y0 z0 = true ∧
      applyShadow diff true = 0) ∧
    (res = OracleResult.timeout →
      is_shadowed_to_light dist jv res x0 y0 z0 = false) ∧
    (res = OracleResult.miss →
      is_shadowed_to_light dist jv res x0 y0 z0 = false) ∧
    (res = OracleResult.hit x0 y0 z0 →
      is_shadowed_to_light dist jv res x0 y0 z0 = false) ∧
    applyShadow diff false = diff := by
  refine ⟨?_, ?_, ?_, ?_, rfl⟩
  · intro sx sy sz hres hne hjv hdist
    subst hres
    subst hjv
    refine ⟨?_, rfl⟩
    unfold is_shadowed_to_light
    rw [if_neg hdist, if_neg (by simp)]
    simp only [Bool.not_eq_true', Bool.and_eq_true, decide_eq_true_eq]
    simp only [Bool.and_eq_false_iff, decide_eq_false_iff_not]
    tauto
  · intro h
    subst h
    unfold is_shadowed_to_light
    split_ifs <;> rfl
  · intro h
    subst h
    unfold is_shadowed_to_light
    split_ifs <;> rfl
  · intro h
    subst h
    unfold is_shadowed_to_light
    split_ifs <;> simp

/-- Witness for C7 at a hit away from the originating voxel. -/
theorem shadow_occlusion_spec_witness :
    is_shadowed_to_light 10 true (OracleResult.hit 1 2 3) 4 5 6 = true ∧
    applyShadow (1/2 : ℝ) true = 0 :=
  (shadow_occlusion_spec 10 true (OracleResult.hit 1 2 3) 4 5 6 (1/2)).1 1 2 3 rfl
    (by norm_num) rfl (by norm_num)
